import Mathlib

/-!
Verification of the wwvbpy core: the streaming frame synchronizer
(src/wwvbdec.py) and the minute/timecode frame codec.

The synchronizer is embedded directly from the source generator
`wwvbreceive` in src/wwvbdec.py.  The generator is a resumable loop; the
embedding `step` captures its behaviour from one `yield` to the next, so
`step` consumes exactly one input symbol, as the generator does.  The
frame codec (`wwvblib`) is not part of src/ and is modelled from the
specification where needed; those definitions carry a
`Modelled from the spec:` doc comment.
-/

namespace WWVB

/-- Amplitude modulation alphabet, from `wwvblib.AmplitudeModulation`:
one symbol per broadcast second. -/
inductive AM where
  | ZERO
  | ONE
  | MARK
deriving DecidableEq, Repr

/-- Positions that always carry ZERO inside a collected minute, from
`always_zero` in src/wwvbdec.py line 19. -/
def always_zero : List Nat := [4, 10, 11, 14, 20, 21, 34, 35, 44, 54]

/-- States of the streaming synchronizer of src/wwvbdec.py.  State 1 is
Unsynced, state 2 OneMarker, state 3 TwoMarkers, state 4 Collecting with
its accumulation buffer `minute`.  The buffer is only read in state 4 and
is rebuilt on entry to state 4, so it is carried only by `Collecting`. -/
inductive SyncState where
  | Unsynced
  | OneMarker
  | TwoMarkers
  | Collecting (buf : List AM)
deriving DecidableEq, Repr

/-- Body of state 1 in `wwvbreceive`: clear the buffer, and move to state 2
exactly when the symbol is MARK.  The failure branches of state 4 fall
through to this code with the same symbol, without yielding. -/
def stepUnsynced (v : AM) : SyncState :=
  if v = AM.MARK then SyncState.OneMarker else SyncState.Unsynced

/-- One step of `wwvbreceive` from src/wwvbdec.py: the behaviour between two
consecutive `yield`s, consuming one input symbol and producing at most one
emitted timecode (its amplitude list).  In the three framing-failure
branches of state 4 the generator sets `state = 1` without yielding, so the
failing symbol is immediately re-examined by the state-1 body; this is why
those branches end in `stepUnsynced v`. -/
def step : SyncState → AM → SyncState × Option (List AM)
  | SyncState.Unsynced, v => (stepUnsynced v, none)
  | SyncState.OneMarker, v =>
      (if v = AM.MARK then SyncState.TwoMarkers else SyncState.Unsynced, none)
  | SyncState.TwoMarkers, v =>
      (if v = AM.MARK then SyncState.TwoMarkers
       else SyncState.Collecting [AM.MARK, v], none)
  | SyncState.Collecting buf, v =>
      if (buf ++ [v]).length % 10 = 0 ∧ v ≠ AM.MARK then
        (stepUnsynced v, none)
      else if (buf ++ [v]).length % 10 ≠ 0 ∧ v = AM.MARK then
        (stepUnsynced v, none)
      else if (buf ++ [v]).length - 1 ∈ always_zero ∧ v ≠ AM.ZERO then
        (stepUnsynced v, none)
      else if (buf ++ [v]).length = 60 then
        (SyncState.OneMarker, some (buf ++ [v]))
      else
        (SyncState.Collecting (buf ++ [v]), none)

/-- Drive the synchronizer over a list of symbols, collecting the emitted
timecodes in order.  Models repeatedly calling `decoder.send`. -/
def run : SyncState → List AM → SyncState × List (List AM)
  | s, [] => (s, [])
  | s, v :: vs =>
      let r := step s v
      let rest := run r.1 vs
      (rest.1, r.2.toList ++ rest.2)

/-!
Frame codec and minute model.  The implementing module `wwvblib` is not
part of src/; only its tests (src/testwwvb.py) and its caller
(src/wwvbdec.py) are.  The definitions below are therefore modelled from
the specification, pinned where the tests constrain the behaviour.
-/

/-- Modelled from the spec: the broadcast Minute entity of `wwvblib`
(section 3 of the spec): full year, day-of-year, hour, minute, DUT1 offset
in deciseconds, leap-second-scheduled flag, and the two on-air DST status
bits (positions 57 and 58) packed as a number below 4.  The leap-year flag
is derived from `year` and is not a stored field. -/
structure Minute where
  year : Nat
  days : Nat
  hour : Nat
  min : Nat
  dut1 : Int
  ls : Bool
  dst : Nat
deriving DecidableEq, Repr

/-- Proleptic Gregorian leap-year rule (spec section 3, `leap_year`). -/
def isLeap (y : Nat) : Bool :=
  (y % 4 == 0 && y % 100 != 0) || y % 400 == 0

/-- Number of days in a year. -/
def daysInYear (y : Nat) : Nat :=
  if isLeap y then 366 else 365

/-- Modelled from the spec: two-digit-year expansion used by the `wwvblib`
Minute constructor: 0 to 69 map to 2000 to 2069, 70 to 99 map to 1970
to 1999, and a full year is taken as-is. -/
def expandYear (y : Nat) : Nat :=
  if y < 70 then y + 2000 else if y < 100 then y + 1900 else y

/-- Amplitude symbol carrying one data bit: 1 becomes ONE, 0 becomes ZERO.
Only the low bit of the argument is used. -/
def ambit (b : Nat) : AM :=
  if b % 2 = 1 then AM.ONE else AM.ZERO

/-- Sign bit of the DUT1 field: 1 for a non-negative offset, 0 otherwise. -/
def dut1sign (m : Minute) : Nat :=
  if 0 ≤ m.dut1 then 1 else 0

/-- Modelled from the spec: the amplitude symbol broadcast at each second
of the minute (spec section 4.1): MARK at 0, 9, 19, 29, 39, 49, 59; BCD
fields most-significant-bit first at the standard WWVB offsets (minutes at
1 to 8, hours at 12 to 18, day-of-year at 22 to 33, DUT1 sign at 36 to 38,
DUT1 magnitude at 40 to 43, two-digit year at 45 to 53, leap-year flag
at 55, leap-second flag at 56, DST status at 57 to 58); ZERO at every
unassigned position. -/
def amAt (m : Minute) : Nat → AM
  | 0 => AM.MARK
  | 1 => ambit (m.min / 10 / 4)
  | 2 => ambit (m.min / 10 / 2)
  | 3 => ambit (m.min / 10)
  | 4 => AM.ZERO
  | 5 => ambit (m.min % 10 / 8)
  | 6 => ambit (m.min % 10 / 4)
  | 7 => ambit (m.min % 10 / 2)
  | 8 => ambit (m.min % 10)
  | 9 => AM.MARK
  | 10 => AM.ZERO
  | 11 => AM.ZERO
  | 12 => ambit (m.hour / 10 / 2)
  | 13 => ambit (m.hour / 10)
  | 14 => AM.ZERO
  | 15 => ambit (m.hour % 10 / 8)
  | 16 => ambit (m.hour % 10 / 4)
  | 17 => ambit (m.hour % 10 / 2)
  | 18 => ambit (m.hour % 10)
  | 19 => AM.MARK
  | 20 => AM.ZERO
  | 21 => AM.ZERO
  | 22 => ambit (m.days / 100 / 2)
  | 23 => ambit (m.days / 100)
  | 24 => AM.ZERO
  | 25 => ambit (m.days / 10 % 10 / 8)
  | 26 => ambit (m.days / 10 % 10 / 4)
  | 27 => ambit (m.days / 10 % 10 / 2)
  | 28 => ambit (m.days / 10 % 10)
  | 29 => AM.MARK
  | 30 => ambit (m.days % 10 / 8)
  | 31 => ambit (m.days % 10 / 4)
  | 32 => ambit (m.days % 10 / 2)
  | 33 => ambit (m.days % 10)
  | 34 => AM.ZERO
  | 35 => AM.ZERO
  | 36 => ambit (dut1sign m)
  | 37 => ambit (1 - dut1sign m)
  | 38 => ambit (dut1sign m)
  | 39 => AM.MARK
  | 40 => ambit (m.dut1.natAbs / 8)
  | 41 => ambit (m.dut1.natAbs / 4)
  | 42 => ambit (m.dut1.natAbs / 2)
  | 43 => ambit (m.dut1.natAbs)
  | 44 => AM.ZERO
  | 45 => ambit (m.year % 100 / 10 / 8)
  | 46 => ambit (m.year % 100 / 10 / 4)
  | 47 => ambit (m.year % 100 / 10 / 2)
  | 48 => ambit (m.year % 100 / 10)
  | 49 => AM.MARK
  | 50 => ambit (m.year % 10 / 8)
  | 51 => ambit (m.year % 10 / 4)
  | 52 => ambit (m.year % 10 / 2)
  | 53 => ambit (m.year % 10)
  | 54 => AM.ZERO
  | 55 => ambit (if isLeap m.year then 1 else 0)
  | 56 => ambit (if m.ls then 1 else 0)
  | 57 => ambit m.dst
  | 58 => ambit (m.dst / 2)
  | 59 => AM.MARK
  | _ => AM.MARK

/-- Modelled from the spec: `encode` of the frame codec (spec section 4.1):
a 60-symbol amplitude timecode, with one extra trailing MARK when the
minute is a leap-second minute (the spec places a marker at the final
position of a 61-symbol minute). -/
def encode (m : Minute) : List AM :=
  (List.range 60).map (amAt m) ++ (if m.ls then [AM.MARK] else [])

/-- Data bit carried by one amplitude symbol; MARK carries no data bit. -/
def readAM : AM → Option Nat
  | AM.ZERO => some 0
  | AM.ONE => some 1
  | AM.MARK => none

/-- Data bit at one position of a received timecode. -/
def readBit (t : List AM) (i : Nat) : Option Nat :=
  (t[i]?).bind readAM

/-- Data bit at one position, defaulting to 0; meaningful once `strayOK`
has established that the position holds a data symbol. -/
def bitD (t : List AM) (i : Nat) : Nat :=
  (readBit t i).getD 0

/-- Positions of a received frame that carry data bits. -/
def dataPos : List Nat :=
  [1, 2, 3, 5, 6, 7, 8, 12, 13, 15, 16, 17, 18, 22, 23, 25, 26, 27, 28,
   30, 31, 32, 33, 36, 37, 38, 40, 41, 42, 43, 45, 46, 47, 48, 50, 51,
   52, 53, 55, 56, 57, 58]

/-- Validation: the length of a received timecode is 60 or 61
(spec section 4.2). -/
def lengthOK (t : List AM) : Bool :=
  t.length == 60 || t.length == 61

/-- Validation check 1a of spec section 4.2: MARK at every marker position,
including the final position of a 61-symbol minute. -/
def markersOK (t : List AM) : Bool :=
  t[0]? == some AM.MARK && t[9]? == some AM.MARK && t[19]? == some AM.MARK
    && t[29]? == some AM.MARK && t[39]? == some AM.MARK
    && t[49]? == some AM.MARK && t[59]? == some AM.MARK
    && (t.length != 61 || t[60]? == some AM.MARK)

/-- Validation check 1b of spec section 4.2: no MARK at any data position
(every data position must carry a data bit). -/
def strayOK (t : List AM) : Bool :=
  dataPos.all fun i => (readBit t i).isSome

/-- Always-zero positions of the received frame as the decoder checks them:
the unassigned positions of the layout (spec section 4.1), which are the
synchronizer's `always_zero` set together with position 24. -/
def zeroPos : List Nat :=
  [4, 10, 11, 14, 20, 21, 24, 34, 35, 44, 54]

/-- Validation check 2 of spec section 4.2: ZERO at every always-zero
position. -/
def azOK (t : List AM) : Bool :=
  zeroPos.all fun i => t[i]? == some AM.ZERO

/-- Validation check 3 of spec section 4.2 as pinned by
src/testwwvb.py test_noise2: of the 8 values of the 3-bit field at
positions 36 to 38, only the two patterns 0b101 and 0b010 (low bit at
position 36) are legal; the test asserts the other 6 fail to decode. -/
def signOK (t : List AM) : Bool :=
  (bitD t 36 == 1 && bitD t 37 == 0 && bitD t 38 == 1)
    || (bitD t 36 == 0 && bitD t 37 == 1 && bitD t 38 == 0)

/-- Minutes value reconstructed from the BCD field at positions 1 to 8. -/
def minuteVal (t : List AM) : Nat :=
  10 * (4 * bitD t 1 + 2 * bitD t 2 + bitD t 3)
    + (8 * bitD t 5 + 4 * bitD t 6 + 2 * bitD t 7 + bitD t 8)

/-- Hours value reconstructed from the BCD field at positions 12 to 18. -/
def hourVal (t : List AM) : Nat :=
  10 * (2 * bitD t 12 + bitD t 13)
    + (8 * bitD t 15 + 4 * bitD t 16 + 2 * bitD t 17 + bitD t 18)

/-- Day-of-year value reconstructed from the BCD field at
positions 22 to 33. -/
def doyVal (t : List AM) : Nat :=
  100 * (2 * bitD t 22 + bitD t 23)
    + 10 * (8 * bitD t 25 + 4 * bitD t 26 + 2 * bitD t 27 + bitD t 28)
    + (8 * bitD t 30 + 4 * bitD t 31 + 2 * bitD t 32 + bitD t 33)

/-- DUT1 magnitude reconstructed from the BCD field at
positions 40 to 43, in deciseconds. -/
def magVal (t : List AM) : Nat :=
  8 * bitD t 40 + 4 * bitD t 41 + 2 * bitD t 42 + bitD t 43

/-- Signed DUT1 value: positive when the sign pattern is 0b101. -/
def dut1Val (t : List AM) : Int :=
  if bitD t 38 = 1 then (magVal t : Int) else -(magVal t : Int)

/-- Full year reconstructed from the two-digit BCD field at
positions 45 to 53, expanded by the epoch rule. -/
def yearVal (t : List AM) : Nat :=
  expandYear (10 * (8 * bitD t 45 + 4 * bitD t 46 + 2 * bitD t 47 + bitD t 48)
    + (8 * bitD t 50 + 4 * bitD t 51 + 2 * bitD t 52 + bitD t 53))

/-- Validation check 4 of spec section 4.2: the reconstructed day-of-year
must be at least 1, at most the day count of the reconstructed year, and
the broadcast leap-year flag must agree with the reconstructed year. -/
def doyOK (t : List AM) : Bool :=
  decide (1 ≤ doyVal t) && decide (doyVal t ≤ daysInYear (yearVal t))
    && (bitD t 55 == if isLeap (yearVal t) then 1 else 0)

/-- Validation check 5 of spec section 4.2: minute and hour ranges. -/
def mhOK (t : List AM) : Bool :=
  decide (minuteVal t ≤ 59) && decide (hourVal t ≤ 23)

/-- Modelled from the spec: `decode` of the frame codec
(spec section 4.2, `wwvblib.WWVBMinute.from_timecode_am`): run the
validation checks in order and fail closed, returning no result on the
first violation; otherwise rebuild the Minute from the BCD fields.  The
function is total by construction. -/
def decode (t : List AM) : Option Minute :=
  if lengthOK t && markersOK t && strayOK t && azOK t && signOK t
      && doyOK t && mhOK t then
    some { year := yearVal t, days := doyVal t, hour := hourVal t,
           min := minuteVal t, dut1 := dut1Val t, ls := bitD t 56 == 1,
           dst := bitD t 57 + 2 * bitD t 58 }
  else
    none

/-- Modelled from the spec: equality of Minute values (spec section 3):
two Minute values are equal iff their expanded full-year, day, hour and
minute fields are equal. -/
def mEq (a b : Minute) : Bool :=
  a.year == b.year && a.days == b.days && a.hour == b.hour && a.min == b.min

/-- Modelled from the spec: the `wwvblib.WWVBMinute` constructor from
explicit fields, expanding a two-digit year by the epoch rule.  The DUT1
offset, leap-second flag and DST bits are derived from external data by
the real constructor and do not take part in Minute equality; they are
fixed to neutral values here. -/
def mkMinute (year days hour min : Nat) : Minute :=
  { year := expandYear year, days := days, hour := hour, min := min,
    dut1 := 0, ls := false, dst := 0 }

/-- Modelled from the spec: `successor` of the minute arithmetic
(spec section 4.3): advance by one minute, rolling minute to hour to day
to year, and recompute DUT1 and the leap-second flag for the new date from
the external offset table `tbl` (given date as year and day-of-year).
The DST bits are carried over. -/
def next_minute (tbl : Nat → Nat → Int × Bool) (m : Minute) : Minute :=
  if m.min < 59 then
    { year := m.year, days := m.days, hour := m.hour, min := m.min + 1,
      dut1 := (tbl m.year m.days).1, ls := (tbl m.year m.days).2,
      dst := m.dst }
  else if m.hour < 23 then
    { year := m.year, days := m.days, hour := m.hour + 1, min := 0,
      dut1 := (tbl m.year m.days).1, ls := (tbl m.year m.days).2,
      dst := m.dst }
  else if m.days < daysInYear m.year then
    { year := m.year, days := m.days + 1, hour := 0, min := 0,
      dut1 := (tbl m.year (m.days + 1)).1,
      ls := (tbl m.year (m.days + 1)).2, dst := m.dst }
  else
    { year := m.year + 1, days := 1, hour := 0, min := 0,
      dut1 := (tbl (m.year + 1) 1).1, ls := (tbl (m.year + 1) 1).2,
      dst := m.dst }

/-- Modelled from the spec: `predecessor` of the minute arithmetic
(spec section 4.3), defined symmetrically to `next_minute`. -/
def previous_minute (tbl : Nat → Nat → Int × Bool) (m : Minute) : Minute :=
  if 0 < m.min then
    { year := m.year, days := m.days, hour := m.hour, min := m.min - 1,
      dut1 := (tbl m.year m.days).1, ls := (tbl m.year m.days).2,
      dst := m.dst }
  else if 0 < m.hour then
    { year := m.year, days := m.days, hour := m.hour - 1, min := 59,
      dut1 := (tbl m.year m.days).1, ls := (tbl m.year m.days).2,
      dst := m.dst }
  else if 1 < m.days then
    { year := m.year, days := m.days - 1, hour := 23, min := 59,
      dut1 := (tbl m.year (m.days - 1)).1,
      ls := (tbl m.year (m.days - 1)).2, dst := m.dst }
  else
    { year := m.year - 1, days := daysInYear (m.year - 1), hour := 23,
      min := 59, dut1 := (tbl (m.year - 1) (daysInYear (m.year - 1))).1,
      ls := (tbl (m.year - 1) (daysInYear (m.year - 1))).2,
      dst := m.dst }

/-- Validity of a Minute as produced by derivation from a civil date-time
in the represented epoch (spec section 3): year in the 1970 to 2069
window, day-of-year in range for the year, hour and minute in range,
DUT1 within 0.7 seconds, DST bits below 4. -/
def validMinute (m : Minute) : Prop :=
  1970 ≤ m.year ∧ m.year ≤ 2069 ∧ 1 ≤ m.days ∧ m.days ≤ daysInYear m.year
    ∧ m.hour ≤ 23 ∧ m.min ≤ 59 ∧ -7 ≤ m.dut1 ∧ m.dut1 ≤ 7 ∧ m.dst < 4

instance (m : Minute) : Decidable (validMinute m) := by
  unfold validMinute
  infer_instance

/-- Overwrite the 3-bit field at positions 36 to 38 of a timecode with the
bits of `i`, low bit at position 36, as src/testwwvb.py test_noise2 does. -/
def withSign (t : List AM) (i : Nat) : List AM :=
  ((t.set 36 (ambit i)).set 37 (ambit (i / 2))).set 38 (ambit (i / 4))

/-- Structural well-formedness of a collected buffer or emitted frame, as
enforced position-by-position by the synchronizer's three framing checks:
a MARK exactly at position 0 and at positions congruent to 9 modulo 10,
and ZERO at every `always_zero` position. -/
def frameOK (t : List AM) : Prop :=
  ∀ i (h : i < t.length),
    (t[i] = AM.MARK ↔ (i = 0 ∨ i % 10 = 9))
      ∧ (i ∈ always_zero → t[i] = AM.ZERO)

/-- Invariant carried by every reachable synchronizer state: a Collecting
buffer holds between 2 and 59 symbols and is framing-consistent. -/
def goodState : SyncState → Prop
  | SyncState.Collecting buf => 2 ≤ buf.length ∧ buf.length ≤ 59 ∧ frameOK buf
  | _ => True

/-- States from which a MARK lead-in re-synchronizes cleanly: every state
except a Collecting buffer whose next position is a 10-second marker slot
(such a buffer silently absorbs the lead-in MARK). -/
def syncReady : SyncState → Bool
  | SyncState.Collecting buf => buf.length % 10 != 9
  | _ => true

/-- Symbol pattern of a frame with every data bit zero: MARK at position 0
and at positions congruent to 9 modulo 10, ZERO elsewhere. -/
def stdFill (i : Nat) : AM :=
  if i % 10 = 9 ∨ i = 0 then AM.MARK else AM.ZERO

/-- Concrete reference minute used by witnesses and counterexamples:
1992-06-30 (day-of-year 182) 23:50 UTC with DUT1 of -0.2 seconds. -/
def mRef : Minute :=
  { year := 1992, days := 182, hour := 23, min := 50, dut1 := -2,
    ls := false, dst := 0 }

/-- Concrete leap-second minute used by witnesses: the last minute of
1992-06-30 UTC, a day with a scheduled leap second. -/
def mRefLS : Minute :=
  { year := 1992, days := 182, hour := 23, min := 59, dut1 := -2,
    ls := true, dst := 0 }

/-!
Helper lemmas.
-/

/-- No always-zero position sits just before a 10-second marker slot. -/
theorem az_not_marker_slot : ∀ x ∈ always_zero, x % 10 ≠ 9 := by decide

/-- Unfolding of one synchronizer step in the Collecting state. -/
theorem step_collecting (buf : List AM) (v : AM) :
    step (SyncState.Collecting buf) v =
      (if (buf.length + 1) % 10 = 0 ∧ v ≠ AM.MARK then
        (stepUnsynced v, none)
      else if (buf.length + 1) % 10 ≠ 0 ∧ v = AM.MARK then
        (stepUnsynced v, none)
      else if buf.length ∈ always_zero ∧ v ≠ AM.ZERO then
        (stepUnsynced v, none)
      else if buf.length + 1 = 60 then
        (SyncState.OneMarker, some (buf ++ [v]))
      else
        (SyncState.Collecting (buf ++ [v]), none)) := by
  unfold step
  simp

/-!
Claim C1.  The spec asserts that any of the three framing-check failures
in the Collecting state discards the buffer and moves the machine to
Unsynced with no output.  The source instead falls through to the
state-1 body without yielding, so the failing symbol is re-examined: when
that symbol is MARK (failure (b)), the machine ends the step in OneMarker,
not Unsynced.
-/

/-- Claim C1, counterexample: in the Collecting state with buffer
[MARK, ZERO], the incoming MARK makes the buffer length 3, which is not a
multiple of 10 while the appended symbol is MARK, so the claim requires a
transition to Unsynced; the machine instead ends the step in OneMarker. -/
theorem c1_counterexample :
    (([AM.MARK, AM.ZERO] ++ [AM.MARK]).length % 10 ≠ 0) ∧
    step (SyncState.Collecting [AM.MARK, AM.ZERO]) AM.MARK
      = (SyncState.OneMarker, none) ∧
    SyncState.OneMarker ≠ SyncState.Unsynced := by decide

/-- Claim C1, amended: after a framing-check failure in the Collecting
state the buffer is discarded and no output is produced, but the machine
transitions to Unsynced only when the failing symbol is not MARKER; a
failing MARKER (case (b)) is re-examined by the state-1 body and leaves
the machine in OneMarker. -/
theorem c1_framing_failure (buf : List AM) (v : AM)
    (h : ((buf.length + 1) % 10 = 0 ∧ v ≠ AM.MARK)
       ∨ ((buf.length + 1) % 10 ≠ 0 ∧ v = AM.MARK)
       ∨ (buf.length ∈ always_zero ∧ v ≠ AM.ZERO)) :
    step (SyncState.Collecting buf) v =
      (if v = AM.MARK then SyncState.OneMarker else SyncState.Unsynced,
       none) := by
  rw [step_collecting]
  rcases h with ⟨h1, h2⟩ | ⟨h1, h2⟩ | ⟨h1, h2⟩
  · rw [if_pos ⟨h1, h2⟩]; rfl
  · rw [if_neg (by tauto), if_pos ⟨h1, h2⟩]; rfl
  · have h10 : (buf.length + 1) % 10 ≠ 0 := by
      have := az_not_marker_slot buf.length h1
      omega
    by_cases hm : v = AM.MARK
    · subst hm
      rw [if_neg (by tauto), if_pos ⟨h10, rfl⟩]; rfl
    · rw [if_neg (by tauto), if_neg (by tauto), if_pos ⟨h1, h2⟩]; rfl

/-- Claim C1, witness for the amended theorem at a concrete input: a MARK
arriving with a buffer of length 3 is framing failure (b) and leaves the
machine in OneMarker with no output. -/
theorem c1_witness :
    step (SyncState.Collecting [AM.MARK, AM.ZERO, AM.ZERO]) AM.MARK
      = (SyncState.OneMarker, none) := by
  have h := c1_framing_failure [AM.MARK, AM.ZERO, AM.ZERO] AM.MARK
    (by decide)
  simpa using h

/-!
Claim C3.  The spec asserts that completing a 60-symbol buffer emits the
timecode, clears the buffer, and moves the machine to TwoMarkers.  The
source sets `state = 2`, which is OneMarker (the emitted minute's closing
marker counts as the first marker of the next lead-in), so the machine
ends in OneMarker.
-/

set_option maxRecDepth 40000 in
/-- Claim C3, counterexample: a full valid minute preceded by its two-MARK
lead-in is fed to a fresh synchronizer; the completed frame is emitted but
the machine ends in OneMarker, not TwoMarkers. -/
theorem c3_counterexample :
    (run SyncState.Unsynced
        ([AM.MARK] ++ encode
          { year := 1992, days := 182, hour := 23, min := 50, dut1 := -2,
            ls := false, dst := 0 })).2.length = 1 ∧
    (run SyncState.Unsynced
        ([AM.MARK] ++ encode
          { year := 1992, days := 182, hour := 23, min := 50, dut1 := -2,
            ls := false, dst := 0 })).1 = SyncState.OneMarker ∧
    SyncState.OneMarker ≠ SyncState.TwoMarkers := by decide

/-- Claim C3, amended: when the Collecting buffer reaches exactly 60
symbols with none of the three framing checks failing, the machine emits
the completed 60-symbol timecode, clears the buffer, and transitions to
OneMarker (the source's state 2): the closing marker of the emitted minute
counts as the first marker of the next minute's lead-in. -/
theorem c3_emit (buf : List AM) (v : AM)
    (hlen : buf.length = 59)
    (ha : ¬((buf.length + 1) % 10 = 0 ∧ v ≠ AM.MARK))
    (hb : ¬((buf.length + 1) % 10 ≠ 0 ∧ v = AM.MARK))
    (hc : ¬(buf.length ∈ always_zero ∧ v ≠ AM.ZERO)) :
    step (SyncState.Collecting buf) v
      = (SyncState.OneMarker, some (buf ++ [v])) := by
  rw [step_collecting]
  rw [if_neg ha, if_neg hb, if_neg hc, if_pos (by omega)]

/-- Claim C3, witness: the amended theorem applied to a concrete 59-symbol
buffer completed by a MARK. -/
theorem c3_witness :
    step (SyncState.Collecting ((List.range 59).map fun i =>
        if i % 10 = 9 ∨ i = 0 then AM.MARK else AM.ZERO)) AM.MARK
      = (SyncState.OneMarker,
         some (((List.range 59).map fun i =>
            if i % 10 = 9 ∨ i = 0 then AM.MARK else AM.ZERO)
          ++ [AM.MARK])) :=
  c3_emit _ _ (by decide) (by decide) (by decide) (by decide)

/-- Claim C5: in any state, one input symbol produces at most one emission
(the output component is a single optional timecode), and an emission
happens only on the symbol whose append brings the Collecting buffer to
length exactly 60; the emitted timecode is that 60-symbol buffer. -/
theorem c5_emit_only_at_60 (s : SyncState) (v : AM) (tc : List AM)
    (h : (step s v).2 = some tc) :
    ∃ buf, s = SyncState.Collecting buf ∧ buf.length = 59
      ∧ tc = buf ++ [v] ∧ tc.length = 60 := by
  cases s with
  | Unsynced => exact absurd h (by simp [step])
  | OneMarker => exact absurd h (by simp [step])
  | TwoMarkers => exact absurd h (by simp [step])
  | Collecting buf =>
      rw [step_collecting] at h
      by_cases ha : (buf.length + 1) % 10 = 0 ∧ v ≠ AM.MARK
      · rw [if_pos ha] at h; exact absurd h (by simp)
      rw [if_neg ha] at h
      by_cases hb : (buf.length + 1) % 10 ≠ 0 ∧ v = AM.MARK
      · rw [if_pos hb] at h; exact absurd h (by simp)
      rw [if_neg hb] at h
      by_cases hc : buf.length ∈ always_zero ∧ v ≠ AM.ZERO
      · rw [if_pos hc] at h; exact absurd h (by simp)
      rw [if_neg hc] at h
      by_cases h4 : buf.length + 1 = 60
      · rw [if_pos h4] at h
        have ht : buf ++ [v] = tc := by simpa using h
        refine ⟨buf, rfl, by omega, ht.symm, ?_⟩
        rw [← ht, List.length_append]
        simp only [List.length_cons, List.length_nil]
        omega
      · rw [if_neg h4] at h; exact absurd h (by simp)

/-- Claim C5, witness: the theorem applied at a concrete emitting step. -/
theorem c5_witness :
    ∃ buf, SyncState.Collecting ((List.range 59).map fun i =>
        if i % 10 = 9 ∨ i = 0 then AM.MARK else AM.ZERO)
        = SyncState.Collecting buf
      ∧ buf.length = 59
      ∧ (((List.range 59).map fun i =>
          if i % 10 = 9 ∨ i = 0 then AM.MARK else AM.ZERO) ++ [AM.MARK])
          = buf ++ [AM.MARK]
      ∧ (((List.range 59).map fun i =>
          if i % 10 = 9 ∨ i = 0 then AM.MARK else AM.ZERO)
          ++ [AM.MARK]).length = 60 :=
  c5_emit_only_at_60 _ AM.MARK _ (by decide)

/-- Appending a symbol that passes all three framing checks preserves
buffer well-formedness. -/
theorem frameOK_append (buf : List AM) (v : AM)
    (hf : frameOK buf) (h0 : 2 ≤ buf.length)
    (ha : ¬((buf.length + 1) % 10 = 0 ∧ v ≠ AM.MARK))
    (hb : ¬((buf.length + 1) % 10 ≠ 0 ∧ v = AM.MARK))
    (hc : ¬(buf.length ∈ always_zero ∧ v ≠ AM.ZERO)) :
    frameOK (buf ++ [v]) := by
  intro i hi
  rw [List.length_append, List.length_cons, List.length_nil] at hi
  by_cases hlt : i < buf.length
  · rw [List.getElem_append_left hlt]
    exact hf i hlt
  · have hieq : i = buf.length := by omega
    subst hieq
    rw [List.getElem_concat_length buf v buf.length rfl]
    refine ⟨⟨?_, ?_⟩, ?_⟩
    · intro hv
      by_contra hno
      push_neg at hno
      exact hb ⟨by omega, hv⟩
    · rintro (h9 | h9)
      · omega
      · by_contra hv
        exact ha ⟨by omega, hv⟩
    · intro haz
      by_contra hv
      exact hc ⟨haz, hv⟩

/-- One synchronizer step preserves the reachable-state invariant, and any
timecode it emits is a well-formed 60-symbol frame. -/
theorem step_preserves_good (s : SyncState) (v : AM) (hs : goodState s) :
    goodState (step s v).1
      ∧ ∀ tc, (step s v).2 = some tc → tc.length = 60 ∧ frameOK tc := by
  have hgu : goodState (stepUnsynced v) := by
    unfold stepUnsynced
    split <;> trivial
  cases s with
  | Unsynced => exact ⟨hgu, fun tc h => absurd h (by simp [step])⟩
  | OneMarker =>
      refine ⟨?_, fun tc h => absurd h (by simp [step])⟩
      show goodState (if v = AM.MARK then SyncState.TwoMarkers
        else SyncState.Unsynced, (none : Option (List AM))).1
      split <;> trivial
  | TwoMarkers =>
      refine ⟨?_, fun tc h => absurd h (by simp [step])⟩
      show goodState (if v = AM.MARK then SyncState.TwoMarkers
        else SyncState.Collecting [AM.MARK, v], (none : Option (List AM))).1
      by_cases hv : v = AM.MARK
      · rw [if_pos hv]; trivial
      · rw [if_neg hv]
        refine ⟨by simp, by simp, ?_⟩
        intro i hi
        simp only [List.length_cons, List.length_nil] at hi
        interval_cases i <;> simp_all [always_zero]
  | Collecting buf =>
      obtain ⟨hge2, hle, hf⟩ := hs
      rw [step_collecting]
      by_cases ha : (buf.length + 1) % 10 = 0 ∧ v ≠ AM.MARK
      · rw [if_pos ha]
        exact ⟨hgu, fun tc h => absurd h (by simp)⟩
      rw [if_neg ha]
      by_cases hb : (buf.length + 1) % 10 ≠ 0 ∧ v = AM.MARK
      · rw [if_pos hb]
        exact ⟨hgu, fun tc h => absurd h (by simp)⟩
      rw [if_neg hb]
      by_cases hc : buf.length ∈ always_zero ∧ v ≠ AM.ZERO
      · rw [if_pos hc]
        exact ⟨hgu, fun tc h => absurd h (by simp)⟩
      rw [if_neg hc]
      by_cases h4 : buf.length + 1 = 60
      · rw [if_pos h4]
        refine ⟨trivial, fun tc h => ?_⟩
        have htc : buf ++ [v] = tc := by simpa using h
        rw [← htc]
        constructor
        · rw [List.length_append]; simp; omega
        · exact frameOK_append buf v hf hge2 ha hb hc
      · rw [if_neg h4]
        refine ⟨⟨?_, ?_, frameOK_append buf v hf hge2 ha hb hc⟩,
          fun tc h => absurd h (by simp)⟩
        · rw [List.length_append]; simp; omega
        · rw [List.length_append]; simp; omega

/-- Driving the synchronizer from a good state keeps it good, and every
emitted timecode along the way is a well-formed 60-symbol frame. -/
theorem run_good (p : List AM) : ∀ s : SyncState, goodState s →
    goodState (run s p).1
      ∧ ∀ tc ∈ (run s p).2, tc.length = 60 ∧ frameOK tc := by
  induction p with
  | nil => intro s hs; exact ⟨hs, by simp [run]⟩
  | cons v vs ih =>
      intro s hs
      obtain ⟨hg, hout⟩ := step_preserves_good s v hs
      obtain ⟨hg2, hout2⟩ := ih (step s v).1 hg
      refine ⟨by simpa [run] using hg2, ?_⟩
      intro tc htc
      simp only [run, List.mem_append] at htc
      rcases htc with htc | htc
      · rcases o : (step s v).2 with _ | w
        · rw [o] at htc; simp at htc
        · rw [o] at htc
          simp at htc
          subst htc
          exact hout tc o
      · exact hout2 tc htc

/-- Claim C10: every timecode the synchronizer emits, starting from the
initial Unsynced state on an arbitrary input stream, has exactly 60
amplitude symbols, carries MARK exactly at positions 0, 9, 19, 29, 39,
49 and 59, and carries ZERO at every `always_zero` position. -/
theorem c10_emitted_frames (p : List AM) (tc : List AM)
    (h : tc ∈ (run SyncState.Unsynced p).2) :
    tc.length = 60 ∧ ∀ i (hi : i < tc.length),
      (tc[i] = AM.MARK ↔ i ∈ ([0, 9, 19, 29, 39, 49, 59] : List Nat))
        ∧ (i ∈ always_zero → tc[i] = AM.ZERO) := by
  obtain ⟨hlen, hfr⟩ := (run_good p SyncState.Unsynced trivial).2 tc h
  refine ⟨hlen, fun i hi => ?_⟩
  obtain ⟨h1, h2⟩ := hfr i hi
  refine ⟨?_, h2⟩
  rw [h1]
  have hi60 : i < 60 := by omega
  have hiff : ∀ j < 60, ((j = 0 ∨ j % 10 = 9)
      ↔ j ∈ ([0, 9, 19, 29, 39, 49, 59] : List Nat)) := by decide
  exact hiff i hi60

set_option maxRecDepth 40000 in
/-- Claim C10, witness: the theorem applied to a concrete noisy stream that
leads to one emission. -/
theorem c10_witness :
    ((List.range 60).map stdFill
        ∈ (run SyncState.Unsynced
            (AM.ONE :: AM.MARK :: (List.range 60).map stdFill)).2)
      ∧ ((List.range 60).map stdFill).length = 60
      ∧ ∀ i (hi : i < ((List.range 60).map stdFill).length),
          (((List.range 60).map stdFill)[i] = AM.MARK
              ↔ i ∈ ([0, 9, 19, 29, 39, 49, 59] : List Nat))
            ∧ (i ∈ always_zero
              → ((List.range 60).map stdFill)[i] = AM.ZERO) := by
  have he : (run SyncState.Unsynced
      (AM.ONE :: AM.MARK :: (List.range 60).map stdFill)).2
      = [(List.range 60).map stdFill] := by decide
  have hmem : (List.range 60).map stdFill
      ∈ (run SyncState.Unsynced
        (AM.ONE :: AM.MARK :: (List.range 60).map stdFill)).2 := by
    rw [he]
    exact List.mem_singleton_self _
  exact ⟨hmem, c10_emitted_frames _ _ hmem⟩

/-- Length of an encoded minute without a leap second. -/
theorem encode_length (m : Minute) (hls : m.ls = false) :
    (encode m).length = 60 := by
  simp [encode, hls]

/-- Optional element access into an encoded minute within the first 60
positions. -/
theorem encode_getElem? (m : Minute) (i : Nat) (hi : i < 60) :
    (encode m)[i]? = some (amAt m i) := by
  unfold encode
  rw [List.getElem?_append_left (by simpa using hi)]
  rw [List.getElem?_map, List.getElem?_range hi]
  rfl

/-- Element access into an encoded minute within the first 60 positions. -/
theorem encode_getElem (m : Minute) (i : Nat) (hi : i < 60)
    (h : i < (encode m).length) : (encode m)[i] = amAt m i := by
  rw [List.getElem_eq_iff]
  exact encode_getElem? m i hi

/-- A data symbol is never a MARK. -/
theorem ambit_ne_mark (b : Nat) : ambit b ≠ AM.MARK := by
  unfold ambit
  split <;> simp

set_option maxHeartbeats 2000000 in
/-- Every encoded minute without a leap second is a well-formed 60-symbol
frame in the sense of the synchronizer's framing checks. -/
theorem encode_frameOK (m : Minute) (hls : m.ls = false) :
    frameOK (encode m) := by
  intro i hi
  have hi60 : i < 60 := by
    rw [encode_length m hls] at hi
    exact hi
  rw [encode_getElem m i hi60 hi]
  interval_cases i <;> simp [amAt, always_zero, ambit_ne_mark]

/-- Running the synchronizer over a concatenation composes the two runs. -/
theorem run_append (s : SyncState) (p q : List AM) :
    run s (p ++ q)
      = ((run (run s p).1 q).1, (run s p).2 ++ (run (run s p).1 q).2) := by
  induction p generalizing s with
  | nil => simp [run]
  | cons v vs ih =>
      simp only [List.cons_append, run, List.append_eq]
      rw [ih]
      simp [List.append_assoc]

/-- Once the synchronizer is collecting a prefix of a well-formed
60-symbol frame, feeding the remaining symbols of that frame completes the
collection: the frame is emitted and the machine ends in OneMarker. -/
theorem collect_aux (f : List AM) (hf : frameOK f) (hlen : f.length = 60) :
    ∀ (rest : List AM) (k : Nat), 2 ≤ k → k ≤ 59 → k + rest.length = 60
      → rest = f.drop k
      → run (SyncState.Collecting (f.take k)) rest
          = (SyncState.OneMarker, [f]) := by
  intro rest
  induction rest with
  | nil =>
      intro k h2 h59 hk hdrop
      simp at hk
      omega
  | cons v vs ih =>
      intro k h2 h59 hk hdrop
      have hklt : k < f.length := by omega
      have hdk : f.drop k = f[k] :: f.drop (k + 1) :=
        List.drop_eq_getElem_cons hklt
      rw [hdk] at hdrop
      injection hdrop with hv hvs
      have hlenk : (f.take k).length = k := by
        rw [List.length_take]
        omega
      have hfk := hf k hklt
      have hna : ¬(((f.take k).length + 1) % 10 = 0 ∧ v ≠ AM.MARK) := by
        rw [hlenk]
        rintro ⟨h1, h2⟩
        exact h2 (by rw [hv]; exact hfk.1.mpr (Or.inr (by omega)))
      have hnb : ¬(((f.take k).length + 1) % 10 ≠ 0 ∧ v = AM.MARK) := by
        rw [hlenk]
        rintro ⟨h1, h2⟩
        have hm := hfk.1.mp (by rw [← hv]; exact h2)
        rcases hm with h0 | h9 <;> omega
      have hnc : ¬((f.take k).length ∈ always_zero ∧ v ≠ AM.ZERO) := by
        rw [hlenk]
        rintro ⟨h1, h2⟩
        exact h2 (by rw [hv]; exact hfk.2 h1)
      have htake : f.take k ++ [v] = f.take (k + 1) := by
        rw [List.take_succ, List.getElem?_eq_getElem hklt, hv]
        rfl
      by_cases h59eq : k = 59
      · subst h59eq
        have hvs0 : vs = [] := by
          rw [hvs]
          exact List.drop_eq_nil_of_le (by omega)
        subst hvs0
        have hstep : step (SyncState.Collecting (f.take 59)) v
            = (SyncState.OneMarker, some f) := by
          rw [step_collecting, if_neg hna, if_neg hnb, if_neg hnc,
            if_pos (by rw [hlenk])]
          rw [htake]
          rw [show f.take 60 = f from by rw [← hlen]; exact List.take_length f]
        simp [run, hstep]
      · have hstep : step (SyncState.Collecting (f.take k)) v
            = (SyncState.Collecting (f.take (k + 1)), none) := by
          rw [step_collecting, if_neg hna, if_neg hnb, if_neg hnc,
            if_neg (by rw [hlenk]; omega)]
          rw [htake]
        simp only [run, hstep]
        rw [ih (k + 1) (by omega) (by omega) (by simp at hk; omega) hvs]
        simp

/-- From OneMarker or TwoMarkers, feeding a complete well-formed 60-symbol
frame emits exactly that frame and ends in OneMarker. -/
theorem run_marker_states (f : List AM) (hf : frameOK f)
    (hlen : f.length = 60) (s : SyncState)
    (hs : s = SyncState.OneMarker ∨ s = SyncState.TwoMarkers) :
    run s f = (SyncState.OneMarker, [f]) := by
  obtain ⟨a, b, r, rfl⟩ : ∃ a b r, f = a :: b :: r := by
    cases f with
    | nil => simp at hlen
    | cons a t =>
        cases t with
        | nil => simp at hlen
        | cons b r => exact ⟨a, b, r, rfl⟩
  have ha : a = AM.MARK := by
    have h := (hf 0 (by simp)).1.mpr (Or.inl rfl)
    simpa using h
  have hb : b ≠ AM.MARK := by
    intro hbM
    have h := (hf 1 (by simp)).1.mp (by simpa using hbM)
    rcases h with h | h <;> omega
  subst ha
  have hc := collect_aux (AM.MARK :: b :: r) hf hlen r 2 (by omega)
    (by simp at hlen; omega) (by simp at hlen ⊢; omega) rfl
  have h2 : (AM.MARK :: b :: r).take 2 = [AM.MARK, b] := rfl
  rw [h2] at hc
  have hsb : step SyncState.TwoMarkers b
      = (SyncState.Collecting [AM.MARK, b], none) := by
    simp [step, hb]
  rcases hs with rfl | rfl
  · have hsm : step SyncState.OneMarker AM.MARK
        = (SyncState.TwoMarkers, none) := by simp [step]
    simp only [run, hsm, hsb]
    rw [hc]
    simp
  · have hsm : step SyncState.TwoMarkers AM.MARK
        = (SyncState.TwoMarkers, none) := by simp [step]
    simp only [run, hsm, hsb]
    rw [hc]
    simp

/-- A MARK lead-in followed by a complete well-formed 60-symbol frame
re-synchronizes the machine from any ready state and emits exactly that
frame. -/
theorem leadin_frame (f : List AM) (hf : frameOK f) (hlen : f.length = 60)
    (s : SyncState) (hs : syncReady s = true) :
    run s (AM.MARK :: f) = (SyncState.OneMarker, [f]) := by
  obtain ⟨s1, hst, hs1⟩ : ∃ s1, step s AM.MARK = (s1, none)
      ∧ (s1 = SyncState.OneMarker ∨ s1 = SyncState.TwoMarkers) := by
    cases s with
    | Unsynced =>
        exact ⟨SyncState.OneMarker, by simp [step, stepUnsynced], Or.inl rfl⟩
    | OneMarker => exact ⟨SyncState.TwoMarkers, by simp [step], Or.inr rfl⟩
    | TwoMarkers => exact ⟨SyncState.TwoMarkers, by simp [step], Or.inr rfl⟩
    | Collecting buf =>
        have h9 : buf.length % 10 ≠ 9 := by simpa [syncReady] using hs
        refine ⟨SyncState.OneMarker, ?_, Or.inl rfl⟩
        rw [step_collecting]
        rw [if_neg (by rintro ⟨h1, h2⟩; exact h2 rfl),
          if_pos ⟨by omega, rfl⟩]
        rfl
  simp only [run, hst]
  rw [run_marker_states f hf hlen s1 hs1]
  simp

/-!
Claim C4.  The spec asserts that after any frame-free prefix, a valid
lead-in plus a correctly encoded minute produces exactly one emission.
This fails when the prefix leaves the synchronizer collecting a buffer
whose next position is a 10-second marker slot: the lead-in MARK is then
absorbed into the stale buffer, the frame's own leading MARK causes a
framing failure, and the minute is lost entirely.
-/

set_option maxRecDepth 40000 in
/-- Claim C4, counterexample: the ten-symbol prefix MARK MARK followed by
eight ZEROs produces no emission from a fresh synchronizer (and is far too
short to contain any frame), yet feeding a MARK lead-in plus a correctly
encoded minute right after it produces no emission at all instead of
exactly one. -/
theorem c4_counterexample :
    ([AM.MARK, AM.MARK, AM.ZERO, AM.ZERO, AM.ZERO, AM.ZERO, AM.ZERO,
        AM.ZERO, AM.ZERO, AM.ZERO] : List AM).length = 10 ∧
    (run SyncState.Unsynced
        [AM.MARK, AM.MARK, AM.ZERO, AM.ZERO, AM.ZERO, AM.ZERO, AM.ZERO,
          AM.ZERO, AM.ZERO, AM.ZERO]).2 = [] ∧
    (run SyncState.Unsynced
        ([AM.MARK, AM.MARK, AM.ZERO, AM.ZERO, AM.ZERO, AM.ZERO, AM.ZERO,
            AM.ZERO, AM.ZERO, AM.ZERO]
          ++ AM.MARK :: encode
            { year := 1992, days := 182, hour := 23, min := 50,
              dut1 := -2, ls := false, dst := 0 })).2 = [] := by
  refine ⟨rfl, by decide, by decide⟩

/-- Claim C4, amended: for every finite prefix that produces no emission
from a fresh synchronizer and leaves it in a ready state (any state other
than a Collecting buffer whose next position is a 10-second marker slot),
feeding a MARK lead-in followed by the 60 symbols of a correctly encoded
non-leap-second minute produces exactly one emission, equal to the encoded
Timecode. -/
theorem c4_resync (p : List AM) (m : Minute) (hls : m.ls = false)
    (hno : (run SyncState.Unsynced p).2 = [])
    (hready : syncReady (run SyncState.Unsynced p).1 = true) :
    (run SyncState.Unsynced (p ++ AM.MARK :: encode m)).2 = [encode m] := by
  rw [run_append]
  simp only [hno]
  rw [leadin_frame (encode m) (encode_frameOK m hls) (encode_length m hls)
    _ hready]
  simp

set_option maxRecDepth 40000 in
/-- Claim C4, witness: the amended theorem applied to the one-symbol
prefix ONE and a concrete minute. -/
theorem c4_witness :
    (run SyncState.Unsynced ([AM.ONE] ++ AM.MARK :: encode mRef)).2
      = [encode mRef] :=
  c4_resync [AM.ONE] mRef rfl (by decide) (by decide)

/-- Reading back a data symbol recovers the low bit it carries. -/
theorem readAM_ambit (b : Nat) : readAM (ambit b) = some (b % 2) := by
  unfold ambit
  by_cases h : b % 2 = 1
  · rw [if_pos h, h]; rfl
  · rw [if_neg h, show b % 2 = 0 by omega]; rfl

/-- Data bit read back from an encoded minute within the first 60
positions. -/
theorem bitD_encode (m : Minute) (i : Nat) (hi : i < 60) :
    bitD (encode m) i = (readAM (amAt m i)).getD 0 := by
  unfold bitD readBit
  rw [encode_getElem? m i hi]
  rfl

/-- Reassembling a two-bit BCD digit from its bits. -/
theorem dig2 : ∀ t < 4, 2 * (t / 2 % 2) + t % 2 = t := by decide

/-- Reassembling a three-bit BCD digit from its bits. -/
theorem dig3 : ∀ t < 8, 4 * (t / 4 % 2) + 2 * (t / 2 % 2) + t % 2 = t := by
  decide

/-- Reassembling a four-bit BCD digit from its bits. -/
theorem dig4 : ∀ t < 16,
    8 * (t / 8 % 2) + 4 * (t / 4 % 2) + 2 * (t / 2 % 2) + t % 2 = t := by
  decide

/-- The minutes field of an encoded minute decodes to the minute value. -/
theorem minuteVal_encode (m : Minute) (hmin : m.min ≤ 59) :
    minuteVal (encode m) = m.min := by
  unfold minuteVal
  rw [bitD_encode m 1 (by omega), bitD_encode m 2 (by omega),
    bitD_encode m 3 (by omega), bitD_encode m 5 (by omega),
    bitD_encode m 6 (by omega), bitD_encode m 7 (by omega),
    bitD_encode m 8 (by omega)]
  simp only [amAt, readAM_ambit, Option.getD_some]
  have h3 := dig3 (m.min / 10) (by omega)
  have h4 := dig4 (m.min % 10) (by omega)
  omega

/-- The hours field of an encoded minute decodes to the hour value. -/
theorem hourVal_encode (m : Minute) (hh : m.hour ≤ 23) :
    hourVal (encode m) = m.hour := by
  unfold hourVal
  rw [bitD_encode m 12 (by omega), bitD_encode m 13 (by omega),
    bitD_encode m 15 (by omega), bitD_encode m 16 (by omega),
    bitD_encode m 17 (by omega), bitD_encode m 18 (by omega)]
  simp only [amAt, readAM_ambit, Option.getD_some]
  have h2 := dig2 (m.hour / 10) (by omega)
  have h4 := dig4 (m.hour % 10) (by omega)
  omega

/-- The day-of-year field of an encoded minute decodes to the day
value. -/
theorem doyVal_encode (m : Minute) (hd : m.days ≤ 366) :
    doyVal (encode m) = m.days := by
  unfold doyVal
  rw [bitD_encode m 22 (by omega), bitD_encode m 23 (by omega),
    bitD_encode m 25 (by omega), bitD_encode m 26 (by omega),
    bitD_encode m 27 (by omega), bitD_encode m 28 (by omega),
    bitD_encode m 30 (by omega), bitD_encode m 31 (by omega),
    bitD_encode m 32 (by omega), bitD_encode m 33 (by omega)]
  simp only [amAt, readAM_ambit, Option.getD_some]
  have h2 := dig2 (m.days / 100) (by omega)
  have ht := dig4 (m.days / 10 % 10) (by omega)
  have hu := dig4 (m.days % 10) (by omega)
  omega

/-- The DUT1 magnitude field of an encoded minute decodes to the absolute
offset. -/
theorem magVal_encode (m : Minute) (h1 : -7 ≤ m.dut1) (h2 : m.dut1 ≤ 7) :
    magVal (encode m) = m.dut1.natAbs := by
  unfold magVal
  rw [bitD_encode m 40 (by omega), bitD_encode m 41 (by omega),
    bitD_encode m 42 (by omega), bitD_encode m 43 (by omega)]
  simp only [amAt, readAM_ambit, Option.getD_some]
  have h4 := dig4 m.dut1.natAbs (by omega)
  omega

/-- The DUT1 sign and magnitude fields of an encoded minute decode to the
signed offset. -/
theorem dut1Val_encode (m : Minute) (h1 : -7 ≤ m.dut1) (h2 : m.dut1 ≤ 7) :
    dut1Val (encode m) = m.dut1 := by
  unfold dut1Val
  rw [magVal_encode m h1 h2, bitD_encode m 38 (by omega)]
  simp only [amAt, readAM_ambit, Option.getD_some]
  unfold dut1sign
  by_cases hs : (0 : Int) ≤ m.dut1
  · rw [if_pos hs]
    rw [if_pos (by norm_num)]
    omega
  · rw [if_neg hs]
    rw [if_neg (by norm_num)]
    omega

/-- The two-digit year field of an encoded minute decodes, after epoch
expansion, to the full year. -/
theorem yearVal_encode (m : Minute) (h1 : 1970 ≤ m.year)
    (h2 : m.year ≤ 2069) : yearVal (encode m) = m.year := by
  unfold yearVal
  rw [bitD_encode m 45 (by omega), bitD_encode m 46 (by omega),
    bitD_encode m 47 (by omega), bitD_encode m 48 (by omega),
    bitD_encode m 50 (by omega), bitD_encode m 51 (by omega),
    bitD_encode m 52 (by omega), bitD_encode m 53 (by omega)]
  simp only [amAt, readAM_ambit, Option.getD_some]
  have ht := dig4 (m.year % 100 / 10) (by omega)
  have hu := dig4 (m.year % 10) (by omega)
  unfold expandYear
  split_ifs <;> omega

/-- The leap-second flag of an encoded minute decodes to the flag. -/
theorem lsbit_encode (m : Minute) :
    (bitD (encode m) 56 == 1) = m.ls := by
  rw [bitD_encode m 56 (by omega)]
  cases hls : m.ls <;> simp [amAt, readAM_ambit, hls]

/-- The DST bits of an encoded minute decode to the DST value. -/
theorem dst_encode (m : Minute) (hdst : m.dst < 4) :
    bitD (encode m) 57 + 2 * bitD (encode m) 58 = m.dst := by
  rw [bitD_encode m 57 (by omega), bitD_encode m 58 (by omega)]
  simp only [amAt, readAM_ambit, Option.getD_some]
  omega

/-- An encoded minute passes the length check. -/
theorem lengthOK_encode (m : Minute) : lengthOK (encode m) = true := by
  unfold lengthOK encode
  cases m.ls <;> simp

/-- Optional element access at the extra leap-second position of an
encoded leap-second minute. -/
theorem encode_getElem60 (m : Minute) (hls : m.ls = true) :
    (encode m)[60]? = some AM.MARK := by
  unfold encode
  rw [hls]
  rw [List.getElem?_append_right (by simp)]
  simp

/-- An encoded minute passes the marker checks. -/
theorem markersOK_encode (m : Minute) : markersOK (encode m) = true := by
  unfold markersOK
  rw [encode_getElem? m 0 (by omega), encode_getElem? m 9 (by omega),
    encode_getElem? m 19 (by omega), encode_getElem? m 29 (by omega),
    encode_getElem? m 39 (by omega), encode_getElem? m 49 (by omega),
    encode_getElem? m 59 (by omega)]
  cases hls : m.ls
  · have hlen : (encode m).length = 60 := encode_length m hls
    rw [hlen]
    simp [amAt]
  · rw [encode_getElem60 m hls]
    simp [amAt]

/-- An encoded minute passes the no-stray-marker check: every data
position carries a data bit. -/
theorem strayOK_encode (m : Minute) : strayOK (encode m) = true := by
  unfold strayOK dataPos
  simp only [List.all_cons, List.all_nil, Bool.and_eq_true]
  refine ⟨?_, ?_, ?_, ?_, ?_, ?_, ?_, ?_, ?_, ?_, ?_, ?_, ?_, ?_, ?_, ?_,
    ?_, ?_, ?_, ?_, ?_, ?_, ?_, ?_, ?_, ?_, ?_, ?_, ?_, ?_, ?_, ?_, ?_,
    ?_, ?_, ?_, ?_, ?_, ?_, ?_, ?_, ?_, trivial⟩ <;>
  · unfold readBit
    rw [encode_getElem? _ _ (by omega)]
    simp [amAt, readAM_ambit]

/-- An encoded minute passes the always-zero checks of the decoder. -/
theorem azOK_encode (m : Minute) : azOK (encode m) = true := by
  unfold azOK zeroPos
  simp only [List.all_cons, List.all_nil, Bool.and_eq_true]
  refine ⟨?_, ?_, ?_, ?_, ?_, ?_, ?_, ?_, ?_, ?_, ?_, trivial⟩ <;>
  · rw [encode_getElem? _ _ (by omega)]
    simp [amAt]

/-- An encoded minute passes the 3-bit sign-field check. -/
theorem signOK_encode (m : Minute) : signOK (encode m) = true := by
  unfold signOK
  rw [bitD_encode m 36 (by omega), bitD_encode m 37 (by omega),
    bitD_encode m 38 (by omega)]
  simp only [amAt, readAM_ambit, Option.getD_some]
  unfold dut1sign
  by_cases hs : (0 : Int) ≤ m.dut1 <;> simp [hs]

/-- An encoded minute passes the day-of-year validity check. -/
theorem doyOK_encode (m : Minute) (h1 : 1 ≤ m.days)
    (h2 : m.days ≤ daysInYear m.year) (hy1 : 1970 ≤ m.year)
    (hy2 : m.year ≤ 2069) : doyOK (encode m) = true := by
  unfold doyOK
  rw [doyVal_encode m (by unfold daysInYear at h2; split_ifs at h2 <;> omega),
    yearVal_encode m hy1 hy2, bitD_encode m 55 (by omega)]
  simp only [amAt, readAM_ambit, Option.getD_some, Bool.and_eq_true,
    decide_eq_true_eq]
  refine ⟨⟨h1, h2⟩, ?_⟩
  cases hl : isLeap m.year <;> simp [hl]

/-- An encoded minute passes the minute and hour range checks. -/
theorem mhOK_encode (m : Minute) (hmin : m.min ≤ 59) (hh : m.hour ≤ 23) :
    mhOK (encode m) = true := by
  unfold mhOK
  rw [minuteVal_encode m hmin, hourVal_encode m hh]
  simp [hmin, hh]

/-- Claim C6: decoding an encoded minute recovers the minute exactly, for
every minute with in-range fields, including leap-second minutes and
minutes of leap years. -/
theorem c6_roundtrip (m : Minute) (hv : validMinute m) :
    decode (encode m) = some m := by
  obtain ⟨hy1, hy2, hd1, hd2, hh, hmin, hu1, hu2, hdst⟩ := hv
  unfold decode
  rw [if_pos (by
    simp only [Bool.and_eq_true]
    exact ⟨⟨⟨⟨⟨⟨lengthOK_encode m, markersOK_encode m⟩, strayOK_encode m⟩,
      azOK_encode m⟩, signOK_encode m⟩, doyOK_encode m hd1 hd2 hy1 hy2⟩,
      mhOK_encode m hmin hh⟩)]
  refine congrArg some ?_
  rw [yearVal_encode m hy1 hy2,
    doyVal_encode m (by unfold daysInYear at hd2; split_ifs at hd2 <;> omega),
    hourVal_encode m hh, minuteVal_encode m hmin, dut1Val_encode m hu1 hu2,
    lsbit_encode m, dst_encode m hdst]

/-- Claim C6, witness: the round trip at a concrete leap-second minute of
the leap year 1992 (1992-06-30 23:59 UTC, day-of-year 182). -/
theorem c6_witness : decode (encode mRefLS) = some mRefLS :=
  c6_roundtrip mRefLS (by decide)

/-!
Claim C2.  The spec asserts that exactly 4 of the 8 values of the 3-bit
field at positions 36 to 38 decode successfully.  The in-src test
test_noise2 instead asserts that the 6 values outside 0b010 and 0b101
all fail ("Test the 6 impossible bit-combos"); the field is the DUT1 sign
field, whose only legal patterns are plus (1,0,1) and minus (0,1,0), so
exactly 6 of the 8 values fail and 2 succeed.
-/

/-- Claim C2, counterexample: on the otherwise-valid encoding of the
reference minute, the number of 3-bit field values at positions 36 to 38
that make decode fail is not 4. -/
theorem c2_counterexample :
    ((List.range 8).filter fun i =>
      (decode (withSign (encode mRef) i)).isNone).length ≠ 4 := by
  decide

/-- Claim C2, amended: exactly 6 of the 8 values of the 3-bit field at
positions 36 to 38 make decode of an otherwise-valid Timecode fail, and
the 2 values 0b010 and 0b101 decode successfully. -/
theorem c2_sign_combos :
    ((List.range 8).filter fun i =>
        (decode (withSign (encode mRef) i)).isNone).length = 6
      ∧ (decode (withSign (encode mRef) 2)).isSome = true
      ∧ (decode (withSign (encode mRef) 5)).isSome = true := by
  decide

/-- Claim C7: for every representable minute, the predecessor of the
successor is the original minute, across hour, day and year rollovers;
equality is the spec's Minute equality on the expanded year, day, hour
and minute fields, and the offset table `tbl` supplying DUT1 and
leap-second data for the recomputed date is arbitrary. -/
theorem c7_prev_next (tbl : Nat → Nat → Int × Bool) (m : Minute)
    (hd1 : 1 ≤ m.days) (hd2 : m.days ≤ daysInYear m.year)
    (hh : m.hour ≤ 23) (hmin : m.min ≤ 59) :
    mEq (previous_minute tbl (next_minute tbl m)) m = true := by
  unfold next_minute previous_minute mEq
  by_cases h1 : m.min < 59
  · rw [if_pos h1]
    simp only [if_pos (show 0 < m.min + 1 by omega)]
    simp only [Bool.and_eq_true, beq_iff_eq]
    refine ⟨⟨⟨?_, ?_⟩, ?_⟩, ?_⟩ <;> first | trivial | omega
  rw [if_neg h1]
  by_cases h2 : m.hour < 23
  · rw [if_pos h2]
    simp only [if_neg (show ¬(0 < 0) by omega),
      if_pos (show 0 < m.hour + 1 by omega)]
    simp only [Bool.and_eq_true, beq_iff_eq]
    refine ⟨⟨⟨?_, ?_⟩, ?_⟩, ?_⟩ <;> first | trivial | omega
  rw [if_neg h2]
  by_cases h3 : m.days < daysInYear m.year
  · rw [if_pos h3]
    simp only [if_neg (show ¬(0 < 0) by omega),
      if_pos (show 1 < m.days + 1 by omega)]
    simp only [Bool.and_eq_true, beq_iff_eq]
    refine ⟨⟨⟨?_, ?_⟩, ?_⟩, ?_⟩ <;> first | trivial | omega
  · rw [if_neg h3]
    simp only [if_neg (show ¬(0 < 0) by omega),
      if_neg (show ¬(1 < 1) by omega)]
    simp only [Bool.and_eq_true, beq_iff_eq]
    have hyy : m.year + 1 - 1 = m.year := by omega
    rw [hyy]
    refine ⟨⟨⟨?_, ?_⟩, ?_⟩, ?_⟩ <;> first | trivial | omega

/-- Claim C7, witness: the theorem applied to the reference minute and a
constant offset table. -/
theorem c7_witness :
    mEq (previous_minute (fun _ _ => ((0 : Int), false))
      (next_minute (fun _ _ => ((0 : Int), false)) mRef)) mRef = true :=
  c7_prev_next _ mRef (by decide) (by decide) (by decide) (by decide)

/-- Claim C8: the Minute constructor expands a two-digit year by the
epoch rule: values 0 to 69 become 2000 to 2069 and values 70 to 99 become
1970 to 1999; in particular the Minute built with year 69 equals the one
built with 2069, and year 70 equals 1970. -/
theorem c8_epoch :
    (∀ y, y ≤ 69 → expandYear y = 2000 + y)
      ∧ (∀ y, 70 ≤ y → y ≤ 99 → expandYear y = 1900 + y)
      ∧ mEq (mkMinute 69 1 1 0) (mkMinute 2069 1 1 0) = true
      ∧ mEq (mkMinute 70 1 1 0) (mkMinute 1970 1 1 0) = true := by
  refine ⟨?_, ?_, by decide, by decide⟩
  · intro y hy
    unfold expandYear
    split_ifs <;> omega
  · intro y hy1 hy2
    unfold expandYear
    split_ifs <;> omega

/-- Claim C8, witness: the expansion rule applied at the two pivot
years. -/
theorem c8_witness :
    expandYear 69 = 2000 + 69 ∧ expandYear 70 = 1900 + 70 :=
  ⟨c8_epoch.1 69 (by omega), c8_epoch.2.1 70 (by omega) (by omega)⟩

/-- Claim C9: decode is total on all symbol lists — it always yields an
optional result, and the shallow embedding has no failure channel other
than the empty result — and it fails closed: any violation of the
section 4.2 validations (wrong length, marker failure, stray MARK in a
data field, non-ZERO at an always-zero position, illegal 3-bit sign
combination, out-of-range or leap-inconsistent day-of-year, out-of-range
minute or hour) makes decode return no value. -/
theorem c9_total_fail_closed :
    (∀ t : List AM, decode t = none ∨ ∃ m, decode t = some m)
      ∧ ∀ t : List AM,
          (lengthOK t = false ∨ markersOK t = false ∨ strayOK t = false
            ∨ azOK t = false ∨ signOK t = false ∨ doyOK t = false
            ∨ mhOK t = false)
          → decode t = none := by
  constructor
  · intro t
    unfold decode
    by_cases h : (lengthOK t && markersOK t && strayOK t && azOK t
        && signOK t && doyOK t && mhOK t) = true
    · rw [if_pos h]
      exact Or.inr ⟨_, rfl⟩
    · rw [if_neg h]
      exact Or.inl rfl
  · intro t h
    have hcond : ¬((lengthOK t && markersOK t && strayOK t && azOK t
        && signOK t && doyOK t && mhOK t) = true) := by
      simp only [Bool.and_eq_true]
      rintro ⟨⟨⟨⟨⟨⟨hl, hmk⟩, hst⟩, haz⟩, hsg⟩, hdy⟩, hmh⟩
      rcases h with h | h | h | h | h | h | h <;> simp_all
    unfold decode
    rw [if_neg hcond]

/-- Claim C9, witness: the fail-closed half applied to the 60-ZERO
timecode, which violates the marker check, and the totality half applied
to the same input. -/
theorem c9_witness :
    decode (List.replicate 60 AM.ZERO) = none
      ∧ (decode (List.replicate 60 AM.ZERO) = none
        ∨ ∃ m, decode (List.replicate 60 AM.ZERO) = some m) :=
  ⟨c9_total_fail_closed.2 _ (Or.inr (Or.inl (by decide))),
    c9_total_fail_closed.1 _⟩

end WWVB

